import Mathlib

/-!
Verification of the structured-value path engine and the screen-navigation
state machine of the `ps9s` parameter browser/editor.

The Go source is shallowly embedded:

* `JValue` models the untyped tree produced by `encoding/json.Unmarshal`
  into `interface{}`: objects become association lists (Go map iteration is
  modelled by sorting keys where the source calls `sort.Strings`), arrays
  become lists, JSON numbers become `jflt` (Go `float64`, represented
  exactly as a dyadic rational `m * 2^e`), values inserted by the editor may
  also be `jint` (Go `int64`), `jbool`, `jstr` or `jnull`.
* Functions that can panic in Go return `Option _`, with `none` marking the
  panic; fallible functions return `Except String _` mirroring `error`.
* Go `fmt.Sscanf` with `%d` / `%f` is modelled including its
  ignored-error behaviour (the scanned variable keeps its zero value) and
  its tolerance of trailing garbage.  The `nan` / `inf` / hexadecimal-float
  tokens accepted by Go's scanner are not modelled; no claim depends on
  them.
-/

/-- A JSON-like value as produced by `json.Unmarshal` into `interface{}`
and mutated by the edit screen.  A Go `float64` is represented exactly as a
dyadic rational `m * 2^e` (every finite `float64` is one). -/
inductive JValue where
  | obj  : List (String × JValue) → JValue
  | arr  : List JValue → JValue
  | jstr : String → JValue
  | jint : Int → JValue
  | jflt : (m : Int) → (e : Int) → JValue
  | jbool : Bool → JValue
  | jnull : JValue

/-- One segment of a parsed path, mirroring `pathPart` in the source
(`key`, `isArray`, `index`).  `index` is a Go `int`, hence `Int`: the
source parses it with `fmt.Sscanf(indexStr, "%d", &index)` and a negative
index is representable. -/
structure PathPart where
  key : String
  isArray : Bool
  index : Int
deriving DecidableEq, Repr

/-- Character class used by Go's `fmt` scanner to skip leading space
before a `%d`/`%f` verb (`unicode.IsSpace`, restricted here to the ASCII
space characters; no claim involves other Unicode space). -/
def isSpaceChar (c : Char) : Bool :=
  c = ' ' || c = '\t' || c = '\n' || c = '\r'

/-- Decimal digit test. -/
def isDigitChar (c : Char) : Bool :=
  '0' ≤ c && c ≤ '9'

/-- Value of a list of decimal digits, most significant first. -/
def digitsToNatAux (acc : Nat) : List Char → Nat
  | [] => acc
  | c :: rest => digitsToNatAux (acc * 10 + (c.toNat - '0'.toNat)) rest

/-- Value of a list of decimal digits. -/
def digitsToNat (cs : List Char) : Nat := digitsToNatAux 0 cs

/-- `fmt.Sscanf(s, "%d", &index)` with both return values discarded, as in
`parsePath`: leading space is skipped, an optional sign and a run of
decimal digits are read, trailing input is ignored.  On any scan error
(no digits, or 64-bit overflow, which `strconv.ParseInt` reports and `fmt`
turns into a scan error) the variable keeps its zero value `0`. -/
def sscanfD (cs : List Char) : Int :=
  let cs := cs.dropWhile isSpaceChar
  let (neg, cs) :=
    match cs with
    | '-' :: rest => (true, rest)
    | '+' :: rest => (false, rest)
    | rest => (false, rest)
  let ds := cs.takeWhile isDigitChar
  if ds.isEmpty then 0
  else
    let v : Int := if neg then -(digitsToNat ds : Int) else (digitsToNat ds : Int)
    if v < -(2 ^ 63) || 2 ^ 63 - 1 < v then 0 else v

/-- Close the `current` token accumulator into an object-key segment, the
`if current != "" { parts = append(parts, pathPart{key: current}) }` step
of `parsePath`. -/
def closeKey (cur : List Char) : List PathPart :=
  if cur.isEmpty then [] else [⟨String.mk cur, false, 0⟩]

/-- Parser state: Go's loop either accumulates a key token, or — after a
`[` that follows a non-empty token — is inside `strings.Index(path[i:], "]")`,
collecting the characters of the bracketed index (`key` is the token the
bracket converts, `idx` the index characters seen so far). -/
inductive PMode where
  | normal : PMode
  | bracket : (key : List Char) → (idx : List Char) → PMode

/-- The character loop of `parsePath`.  `cur` is the `current` token
accumulator, `acc` the `parts` built so far; `none` models the
`return nil // Invalid path` exit taken when a `[` that follows a
non-empty token has no matching `]` (reaching the end of the input in
`bracket` mode).  Go finds the matching `]` with `strings.Index` and jumps
past it; consuming the same characters one by one in `bracket` mode builds
the identical `indexStr`.  Go iterates over the bytes of the path;
iterating over characters is equivalent because the three bytes the loop
tests for (`.`, `[`, `]`) are ASCII and cannot occur inside a multi-byte
UTF-8 character. -/
def parseLoop : List Char → PMode → List Char → List PathPart → Option (List PathPart)
  | [], .normal, cur, acc => some (acc ++ closeKey cur)
  | [], .bracket _ _, _, _ => none
  | c :: rest, .normal, cur, acc =>
    if c = '.' then parseLoop rest .normal [] (acc ++ closeKey cur)
    else if c = '[' then
      if cur.isEmpty then parseLoop rest .normal cur acc
      else parseLoop rest (.bracket cur []) [] acc
    else if c = ']' then parseLoop rest .normal cur acc
    else parseLoop rest .normal (cur ++ [c]) acc
  | c :: rest, .bracket key idx, cur, acc =>
    if c = ']' then
      parseLoop rest .normal [] (acc ++ [⟨String.mk key, true, sscanfD idx⟩])
    else parseLoop rest (.bracket key (idx ++ [c])) cur acc

/-- `parsePath`: Go returns `nil` both for the empty result and for the
invalid-path exit, and every caller only inspects the returned slice, so
both are the empty list here. -/
def parsePath (path : String) : List PathPart :=
  (parseLoop path.data .normal [] []).getD []

/-! ### String ordering and key sorting

`sort.Strings` sorts byte-wise lexicographically; on UTF-8 this is the
same as code-point-wise lexicographic order, implemented here as a
structurally recursive boolean comparison (Lean's own `String.lt` is
equivalent but its `@[extern]` implementation does not reduce in the
kernel). -/

/-- Strict lexicographic order on character lists. -/
def charListLt : List Char → List Char → Bool
  | [], [] => false
  | [], _ :: _ => true
  | _ :: _, [] => false
  | a :: as, b :: bs =>
    if a < b then true
    else if b < a then false
    else charListLt as bs

/-- Byte-wise (equivalently code-point-wise) `≤` on strings, the order
`sort.Strings` uses. -/
def strLeB (a b : String) : Bool := !(charListLt b.data a.data)

/-- Insert one object entry into a list sorted by key. -/
def insEnt (e : String × JValue) : List (String × JValue) → List (String × JValue)
  | [] => [e]
  | f :: rest => if strLeB e.1 f.1 then e :: f :: rest else f :: insEnt e rest

/-- Sort object entries by key: the model of
`keys := ...; sort.Strings(keys); for _, key := range keys { value := v[key] ... }`.
Go map keys are unique, so iterating the map in sorted key order is the
same as sorting the association-list entries by key. -/
def sortEnts : List (String × JValue) → List (String × JValue)
  | [] => []
  | e :: rest => insEnt e (sortEnts rest)

/-! ### The `float64` model

A finite `float64` is exactly a dyadic rational `m * 2^e`; `roundDecimal`
implements IEEE-754 round-to-nearest-even conversion of an exact decimal
literal `mant * 10^exp10` (as `strconv.ParseFloat` computes it), returning
`none` where `ParseFloat` reports `ErrRange` (overflow to `±Inf` and
underflow of a non-zero literal to `0`), which `fmt`'s `%f` verb turns
into a scan error. -/

/-- Is `(a / b) * 2^sh ≥ 2^k`?  (`a`, `b` positive naturals.) -/
def scaledGE (a b : Nat) (sh : Int) (k : Nat) : Bool :=
  if 0 ≤ sh then b * 2 ^ k ≤ a * 2 ^ sh.toNat
  else b * 2 ^ (k + (-sh).toNat) ≤ a

/-- Raise the candidate binary exponent while the scaled mantissa is still
`≥ 2^53`, capped at 972 (beyond which the value overflows anyway). -/
def findEUp (a b : Nat) (e2 : Int) : Nat → Int → Int
  | 0, e => e
  | f + 1, e =>
    if e ≥ 972 then e
    else if scaledGE a b (e2 - e) 53 then findEUp a b e2 f (e + 1) else e

/-- Lower the candidate binary exponent while the scaled mantissa is still
`< 2^52`, capped at the subnormal exponent `-1074`. -/
def findEDown (a b : Nat) (e2 : Int) : Nat → Int → Int
  | 0, e => e
  | f + 1, e =>
    if e ≤ -1074 then e
    else if scaledGE a b (e2 - e) 52 then e else findEDown a b e2 f (e - 1)

/-- Round `n / d` to the nearest integer, ties to even. -/
def roundHalfEven (n d : Nat) : Nat :=
  let q := n / d
  let r := n % d
  if d < 2 * r then q + 1
  else if 2 * r < d then q
  else if q % 2 = 0 then q else q + 1

/-- Strip factors of two so that equal `float64` values have a unique
`(mantissa, exponent)` representation. -/
def canonDyadic : Nat → Nat → Int → Nat × Int
  | 0, m, e => (m, e)
  | _ + 1, 0, _ => (0, 0)
  | f + 1, m, e => if m % 2 = 0 then canonDyadic f (m / 2) (e + 1) else (m, e)

/-- Round the exact decimal value `mant * 10^exp10` to the nearest
`float64`, as `strconv.ParseFloat` does; `none` is the `ErrRange` case.
The result is a canonical dyadic pair `(m, e)` with `m` odd (or `(0,0)`). -/
def roundDecimal (mant : Nat) (exp10 : Int) : Option (Nat × Int) :=
  if mant = 0 then some (0, 0)
  else
    -- value = (a / b) * 2^e2 with a, b > 0
    let a : Nat := if 0 ≤ exp10 then mant * 5 ^ exp10.toNat else mant
    let b : Nat := if 0 ≤ exp10 then 1 else 5 ^ (-exp10).toNat
    let e2 : Int := exp10
    let e : Int :=
      if scaledGE a b e2 53 then findEUp a b e2 2200 0
      else findEDown a b e2 2200 0
    let sh := e2 - e
    let n := a * 2 ^ (max sh 0).toNat
    let d := b * 2 ^ (max (-sh) 0).toNat
    let m0 := roundHalfEven n d
    let m : Nat := if m0 = 2 ^ 53 then 2 ^ 52 else m0
    let e : Int := if m0 = 2 ^ 53 then e + 1 else e
    if 971 < e then none          -- overflow: ParseFloat yields ±Inf with ErrRange
    else if m = 0 then none       -- non-zero literal underflows to 0: ErrRange
    else some (canonDyadic 60 m e)

/-- The Go conversion chain `float64(int64(f)) == f` on amd64: true exactly
when `f` is integral and in `[-2^63, 2^63)` (an out-of-range or
non-integral `f` truncates or saturates to a different value; saturation
to `math.MinInt64` is the amd64 behaviour of Go's implementation-defined
out-of-range conversion). -/
def isInt64Exact (m : Int) (e : Int) : Bool :=
  if m = 0 then true
  else if e < 0 then false
  else if m * 2 ^ e.toNat < -(2 ^ 63) then false
  else if 2 ^ 63 ≤ m * 2 ^ e.toNat then false
  else true

/-- Integer value of an integral canonical dyadic. -/
def dyadicToInt (m : Int) (e : Int) : Int := m * 2 ^ e.toNat

/-- Split a leading run of decimal digits. -/
def takeDigits (cs : List Char) : List Char × List Char :=
  (cs.takeWhile isDigitChar, cs.dropWhile isDigitChar)

/-- The tokenizing half of `fmt.Sscanf(s, "%f", &f)`: skip leading
space, read the longest `[+-]?digits[.digits][eE[+-]digits]` token
(ignoring trailing input), and return its sign, mantissa digits value and
decimal exponent, or `none` on a scan error (no mantissa digits, or an
`e` without exponent digits), exactly the tokens `strconv.ParseFloat`
rejects.  Go's scanner additionally accepts `nan`/`inf` and
hexadecimal-float tokens, which are not modelled (no claim involves
them). -/
def scanFloat (s : String) : Option (Bool × Nat × Int) :=
  let cs := s.data.dropWhile isSpaceChar
  let (neg, cs) :=
    match cs with
    | '-' :: rest => (true, rest)
    | '+' :: rest => (false, rest)
    | rest => (false, rest)
  let (intDs, cs) := takeDigits cs
  let (fracDs, cs) :=
    match cs with
    | '.' :: rest => takeDigits rest
    | rest => ([], rest)
  if intDs.isEmpty && fracDs.isEmpty then none
  else
    let eVal : Option Int :=
      match cs with
      | 'e' :: rest | 'E' :: rest =>
        let (eneg, rest) :=
          match rest with
          | '-' :: r => (true, r)
          | '+' :: r => (false, r)
          | r => (false, r)
        let (eDs, _) := takeDigits rest
        if eDs.isEmpty then none
        else some (if eneg then -(digitsToNat eDs : Int) else (digitsToNat eDs : Int))
      | _ => some 0
    match eVal with
    | none => none
    | some ex => some (neg, digitsToNat (intDs ++ fracDs), ex - fracDs.length)

/-- The value `updateJSONValue` stores for a scanned number:
`int64(f)` when `float64(int64(f)) == f`, else the `float64` itself. -/
def numValue (mi : Int) (e : Int) : JValue :=
  if isInt64Exact mi e then .jint (dyadicToInt mi e) else .jflt mi e

/-- `parseNumber`: `fmt.Sscanf(s, "%f", &f)` (token scan plus
`strconv.ParseFloat` rounding; on any scan error, `ErrRange` included,
the function returns `nil` → `none`), then the `int64`-roundtrip check
of the source. -/
def parseNumber (s : String) : Option JValue :=
  match scanFloat s with
  | none => none
  | some (neg, mant, exp10) =>
    match roundDecimal mant exp10 with
    | none => none
    | some (m, e) => some (numValue (if neg then -(m : Int) else (m : Int)) e)

/-- The type-inference chain of `updateJSONValue`: the replacement for the
addressed value is, in order, the literal `null`, the literals
`true`/`false`, a number per `parseNumber`, else the unchanged string. -/
def inferValue (newValue : String) : JValue :=
  if newValue = "null" then .jnull
  else if newValue = "true" then .jbool true
  else if newValue = "false" then .jbool false
  else
    match parseNumber newValue with
    | some num => num
    | none => .jstr newValue

/-! ### Rendering values as Go's `fmt` does -/

/-- Left-pad a numeral with zeros to `k` digits. -/
def padZeros (s : List Char) (k : Nat) : List Char :=
  List.replicate (k - s.length) '0' ++ s

/-- Drop trailing zeros of a fraction. -/
def dropTrailingZeros (s : List Char) : List Char :=
  (s.reverse.dropWhile (· = '0')).reverse

/-- Exact decimal rendering of the `float64` `m * 2^e`.  Go prints a
`float64` under `%v` (and `encoding/json` encodes it) in the shortest
decimal form that round-trips, which for every value reachable in this
development (integral values and short fractions such as `4.5`) coincides
with the exact expansion printed here; the `%g` switch to exponent
notation for very large or very small magnitudes is not modelled (no
claim evaluates such a value). -/
def fmtFloat (m : Int) (e : Int) : String :=
  let sign := if m < 0 then "-" else ""
  let n := m.natAbs
  if 0 ≤ e then sign ++ toString (n * 2 ^ e.toNat)
  else
    let k := (-e).toNat
    let ip := n / 2 ^ k
    let fr := n % 2 ^ k
    let frDigits := dropTrailingZeros (padZeros (toString (fr * 5 ^ k)).data k)
    if frDigits.isEmpty then sign ++ toString ip
    else sign ++ toString ip ++ "." ++ String.mk frDigits

mutual
/-- Computable size of a `JValue`, used as recursion fuel for the
functions that traverse a tree after re-ordering it (sorting object keys
breaks structural recursion); the size strictly bounds the recursion
depth, so the fuel never runs out. -/
def JValue.size : JValue → Nat
  | .obj l => entsSize l + 1
  | .arr l => valsSize l + 1
  | .jstr _ => 1
  | .jint _ => 1
  | .jflt _ _ => 1
  | .jbool _ => 1
  | .jnull => 1

/-- Combined size of object entries. -/
def entsSize : List (String × JValue) → Nat
  | [] => 0
  | (_, v) :: rest => JValue.size v + entsSize rest + 1

/-- Combined size of array elements. -/
def valsSize : List JValue → Nat
  | [] => 0
  | v :: rest => JValue.size v + valsSize rest + 1
end

/-- Space-separated concatenation. -/
def joinSpaced : List String → String
  | [] => ""
  | [s] => s
  | s :: rest => s ++ " " ++ joinSpaced rest

/-- `fmt.Sprintf("%v", x)` for the values an `interface{}` tree can hold,
with fuel for the nested cases (the wrapper passes `sizeOf`, which always
suffices).  Inside a container a `nil` prints as `<nil>` and a map prints
its keys in sorted order (`fmt` sorts map keys since Go 1.12). -/
def sprintfVF : Nat → JValue → String
  | 0, _ => ""
  | _ + 1, .jstr s => s
  | _ + 1, .jnull => "<nil>"
  | _ + 1, .jbool b => if b then "true" else "false"
  | _ + 1, .jint i => toString i
  | _ + 1, .jflt m e => fmtFloat m e
  | f + 1, .arr l => "[" ++ joinSpaced (l.map (sprintfVF f)) ++ "]"
  | f + 1, .obj l =>
    "map[" ++ joinSpaced ((sortEnts l).map (fun kv => kv.1 ++ ":" ++ sprintfVF f kv.2)) ++ "]"

/-- `fmt.Sprintf("%v", x)`: the fuel wrapper. -/
def sprintfV (v : JValue) : String := sprintfVF (JValue.size v) v

/-- The final value-to-string conversion of `getJSONValue`: a `string`
leaf verbatim, JSON `null` as `"null"`, anything else through
`fmt.Sprintf("%v", v)`. -/
def goFormatValue : JValue → String
  | .jstr s => s
  | .jnull => "null"
  | v => sprintfV v

/-! ### Reading a path (`getJSONValue`) -/

/-- Outcome of the navigation loop shared by `getJSONValue`'s body:
`ok` reaches a value, `fail` is an early `return ""`, `crash` is a Go
runtime panic (indexing a slice with a negative index). -/
inductive ResolveRes where
  | ok : JValue → ResolveRes
  | fail : ResolveRes
  | crash : ResolveRes

/-- The `for _, part := range parts` loop of `getJSONValue`.  For an array
segment the current node itself must be an array (the loop never looks
`part.key` up first) and the bound check is only `part.index >= len(arr)`,
so a negative index reaches `arr[part.index]` and panics. -/
def resolveParts : JValue → List PathPart → ResolveRes
  | v, [] => .ok v
  | v, part :: rest =>
    if part.isArray then
      match v with
      | .arr l =>
        if (l.length : Int) ≤ part.index then .fail
        else if part.index < 0 then .crash
        else
          match l.get? part.index.toNat with
          | some c => resolveParts c rest
          | none => .crash
      | _ => .fail
    else
      match v with
      | .obj l =>
        match l.lookup part.key with
        | some c => resolveParts c rest
        | none => .fail
      | _ => .fail

/-- `getJSONValue(data, path)`: empty parse result returns `""` up front;
a resolution failure returns `""`; otherwise the reached value is
converted to a string.  `none` models a panic. -/
def getJSONValue (data : JValue) (path : String) : Option String :=
  let parts := parsePath path
  if parts.isEmpty then some ""
  else
    match resolveParts data parts with
    | .crash => none
    | .fail => some ""
    | .ok v => some (goFormatValue v)

/-! ### Writing a path (`updateJSONValue`) -/

/-- Go map assignment `obj[key] = v` on the association-list model:
replace the first entry with that key, or append a new one. -/
def objSet : List (String × JValue) → String → JValue → List (String × JValue)
  | [], k, nv => [(k, nv)]
  | (k', v') :: rest, k, nv =>
    if k' = k then (k', nv) :: rest else (k', v') :: objSet rest k nv

/-- The navigate-to-parent loop and final assignment of
`updateJSONValue`, written as structural recursion on the segments: Go
mutates the shared containers in place, which on a tree (fresh
`json.Unmarshal` data has no aliasing) is the same as rebuilding the
spine, as done here.  Guards mirror the source exactly: a type mismatch
or `part.index >= len(arr)` is an `error`; a negative index passes the
bound check and panics (`none`); the final object assignment inserts the
key when it is absent. -/
def updateParts (v : JValue) (parts : List PathPart) (nv : JValue) :
    Option (Except String JValue) :=
  match parts with
  | [] => some (.error "invalid path")
  | part :: rest =>
    match rest with
    | [] =>
      -- `parts[len(parts)-1]`: the final assignment
      if part.isArray then
        match v with
        | .arr l =>
          if (l.length : Int) ≤ part.index then
            some (.error "index out of range at final position")
          else if part.index < 0 then none
          else some (.ok (.arr (l.set part.index.toNat nv)))
        | _ => some (.error "expected array at final position")
      else
        match v with
        | .obj l => some (.ok (.obj (objSet l part.key nv)))
        | _ => some (.error "expected object at final position")
    | _ :: _ =>
      -- one step of the navigate-to-parent loop
      if part.isArray then
        match v with
        | .arr l =>
          if (l.length : Int) ≤ part.index then
            some (.error ("index out of range at " ++ part.key))
          else if part.index < 0 then none
          else
            match l.get? part.index.toNat with
            | none => none
            | some c =>
              match updateParts c rest nv with
              | none => none
              | some (.error e) => some (.error e)
              | some (.ok c') => some (.ok (.arr (l.set part.index.toNat c')))
        | _ => some (.error ("expected array at " ++ part.key))
      else
        match v with
        | .obj l =>
          match l.lookup part.key with
          | none => some (.error ("key not found: " ++ part.key))
          | some c =>
            match updateParts c rest nv with
            | none => none
            | some (.error e) => some (.error e)
            | some (.ok c') => some (.ok (.obj (objSet l part.key c')))
        | _ => some (.error ("expected object at " ++ part.key))

/-- `updateJSONValue(data, path, newValue)`: an empty parse result is the
`invalid path` error; otherwise the tree is navigated and the inferred
replacement value written at the final segment.  `some (.ok t)` is the
mutated tree, `some (.error e)` the returned `error`, `none` a panic. -/
def updateJSONValue (data : JValue) (path : String) (newValue : String) :
    Option (Except String JValue) :=
  let parts := parsePath path
  if parts.isEmpty then some (.error ("invalid path: " ++ path))
  else updateParts data parts (inferValue newValue)

/-! ### Flattening (`flattenJSONForView`) -/

/-- Prefix extension for an object key:
`newPrefix := key; if prefix != "" { newPrefix = prefix + "." + key }`. -/
def childPath (p k : String) : String := if p.isEmpty then k else p ++ "." ++ k

mutual
/-- `flattenJSONForView` with fuel (the wrapper passes `JValue.size`,
which always suffices): objects recurse over their entries in sorted key
order, arrays in index order, anything else is a leaf
`(prefix, valueString)` with the same string conversion as
`getJSONValue`. -/
def flattenF : Nat → JValue → String → List (String × String)
  | 0, _, _ => []
  | f + 1, .obj l, p => flattenEntsF f (sortEnts l) p
  | f + 1, .arr l, p => flattenArrF f l p 0
  | _ + 1, v, p => [(p, goFormatValue v)]

/-- The `for _, key := range keys` loop over sorted object entries. -/
def flattenEntsF : Nat → List (String × JValue) → String → List (String × String)
  | 0, _, _ => []
  | _ + 1, [], _ => []
  | f + 1, (k, v) :: rest, p => flattenF f v (childPath p k) ++ flattenEntsF f rest p

/-- The `for i, value := range v` loop over array elements
(`newPrefix := fmt.Sprintf("%s[%d]", prefix, i)`). -/
def flattenArrF : Nat → List JValue → String → Nat → List (String × String)
  | 0, _, _, _ => []
  | _ + 1, [], _, _ => []
  | f + 1, v :: rest, p, i =>
    flattenF f v (p ++ "[" ++ toString i ++ "]") ++ flattenArrF f rest p (i + 1)
end

/-- `flattenJSONForView(data, prefix)` as the view screen calls it. -/
def flattenJSONForView (data : JValue) (p : String) : List (String × String) :=
  flattenF (JValue.size data) data p

/-! ### `json.MarshalIndent` (used by `saveParameter`) -/

/-- Lower-case hexadecimal digit. -/
def hexDigit (n : Nat) : Char :=
  if n < 10 then Char.ofNat ('0'.toNat + n) else Char.ofNat ('a'.toNat + (n - 10))

/-- One character of a JSON string, escaped as `encoding/json` does with
its default HTML escaping (`<`, `>`, `&`, U+2028, U+2029 become `\u`
sequences; `\n`, `\r`, `\t` have short forms; other control characters
become `\u00xx`). -/
def escChar (c : Char) : List Char :=
  if c = '"' then ['\\', '"']
  else if c = '\\' then ['\\', '\\']
  else if c = '\n' then ['\\', 'n']
  else if c = '\r' then ['\\', 'r']
  else if c = '\t' then ['\\', 't']
  else if c.toNat < 0x20 then
    ['\\', 'u', '0', '0', hexDigit (c.toNat / 16), hexDigit (c.toNat % 16)]
  else if c = '<' then "\\u003c".data
  else if c = '>' then "\\u003e".data
  else if c = '&' then "\\u0026".data
  else if c.toNat = 0x2028 then "\\u2028".data
  else if c.toNat = 0x2029 then "\\u2029".data
  else [c]

/-- A JSON string literal with quotes and escaping. -/
def encodeJSONString (s : String) : String :=
  "\"" ++ String.mk (s.data.flatMap escChar) ++ "\""

/-- `sep`-separated concatenation. -/
def joinWith (sep : String) : List String → String
  | [] => ""
  | [s] => s
  | s :: rest => s ++ sep ++ joinWith sep rest

/-- The two-space indentation of `json.MarshalIndent(v, "", "  ")` at a
nesting depth. -/
def indentAt (d : Nat) : String := String.mk (List.replicate (2 * d) ' ')

mutual
/-- `json.MarshalIndent(v, "", "  ")` with fuel: map keys are emitted in
sorted order (as `encoding/json` does), empty containers stay on one
line, and each nesting level indents by two spaces.  A `float64` is
encoded with the same exact-decimal caveat as `fmtFloat`. -/
def marshalF : Nat → JValue → Nat → String
  | 0, _, _ => ""
  | _ + 1, .jnull, _ => "null"
  | _ + 1, .jbool b, _ => if b then "true" else "false"
  | _ + 1, .jint i, _ => toString i
  | _ + 1, .jflt m e, _ => fmtFloat m e
  | _ + 1, .jstr s, _ => encodeJSONString s
  | _ + 1, .arr [], _ => "[]"
  | f + 1, .arr (v :: rest), d =>
    "[\n" ++ joinWith ",\n" (marshalListF f (v :: rest) (d + 1)) ++ "\n" ++ indentAt d ++ "]"
  | _ + 1, .obj [], _ => "\x7b\x7d"
  | f + 1, .obj (e :: rest), d =>
    "\x7b\n" ++ joinWith ",\n" (marshalEntsF f (sortEnts (e :: rest)) (d + 1)) ++ "\n"
      ++ indentAt d ++ "\x7d"

/-- Array elements, each on its own indented line. -/
def marshalListF : Nat → List JValue → Nat → List String
  | 0, _, _ => []
  | _ + 1, [], _ => []
  | f + 1, v :: rest, d => (indentAt d ++ marshalF f v d) :: marshalListF f rest d

/-- Object members, each on its own indented line as `"key": value`. -/
def marshalEntsF : Nat → List (String × JValue) → Nat → List String
  | 0, _, _ => []
  | _ + 1, [], _ => []
  | f + 1, (k, v) :: rest, d =>
    (indentAt d ++ encodeJSONString k ++ ": " ++ marshalF f v d) :: marshalEntsF f rest d
end

/-- `json.MarshalIndent(data, "", "  ")` as `saveParameter` calls it
(marshalling of these trees cannot fail: `NaN`/`Inf` floats, the only
error case, are not representable in the model). -/
def marshalIndent (data : JValue) : String :=
  marshalF (JValue.size data) data 0

/-! ### Recent contexts and the parameter-list screen -/

/-- A recent (profile, region) pair, `config.RecentEntry`. -/
structure RecentEntry where
  profile : String
  region : String
deriving DecidableEq, Repr

/-- Modelled from the spec: `config.AddRecentEntry` lives in the
`internal/config` package, which is not among the provided source files
(only its callers are).  Spec §3: `recentContexts` is an "ordered sequence
(most-recent-first) of (profile,region) pairs, capacity-bounded (5)"; a
promotion moves the pair "to the front of the bounded recent-context list
(deduplicating)". -/
def addRecentEntry (recents : List RecentEntry) (e : RecentEntry) (cap : Nat) :
    List RecentEntry :=
  (e :: recents.filter (· ≠ e)).take cap

/-- ASCII `strings.ToLower` (the Go original lowers all of Unicode; the
claims only involve ASCII names). -/
def toLowerStr (s : String) : String := String.mk (s.data.map Char.toLower)

/-- Is `sub` a prefix of `l`? -/
def listHasPre : List Char → List Char → Bool
  | [], _ => true
  | _ :: _, [] => false
  | a :: as, b :: bs => a = b && listHasPre as bs

/-- `strings.Contains`: substring containment. -/
def containsSub (sub l : List Char) : Bool :=
  if listHasPre sub l then true
  else
    match l with
    | [] => false
    | _ :: rest => containsSub sub rest

/-- The state of `ParameterListModel` relevant to its reducer: parameters
are carried by name (the claims never inspect the other `Parameter`
fields), the embedded `list.Model` by its cursor, the `textinput.Model` by
its value.  Spinner and geometry are presentation-only and omitted. -/
structure PLModel where
  parameters : List String
  filtered : List String
  cursor : Nat
  query : String
  loading : Bool
  searchActive : Bool
  err : Option String
  currentProfile : String
  currentRegion : String
  recents : List RecentEntry
deriving DecidableEq, Repr

/-- Keys the parameter-list reducer distinguishes.  Remaining keys only
move the embedded `list.Model`; `navUp`/`navDown` model its cursor keys
and `typed` a character key (which in search mode feeds the search
input). -/
inductive PLKey where
  | slash | escK | enterK | keyE | keyP | keyQ
  | digit : Nat → PLKey
  | navUp | navDown
  | typed : Char → PLKey
deriving DecidableEq, Repr

/-- Messages of `ParameterListModel.Update` (window-size messages only
change geometry and are omitted). -/
inductive PLMsg where
  | parametersLoaded : List String → PLMsg
  | errorArrived : String → PLMsg
  | key : PLKey → PLMsg

/-- Outbound messages the parameter-list reducer can emit. -/
inductive PLOut where
  | viewParameter : String → PLOut
  | goToProfileSelection : PLOut
  | back : PLOut
  | quitApp : PLOut
  | switchRecent : (profile region : String) → PLOut
deriving DecidableEq, Repr

/-- `filterParameters`: case-insensitive substring filter on names. -/
def filterParameters (m : PLModel) : PLModel :=
  let q := toLowerStr m.query
  let filtered :=
    if q.isEmpty then m.parameters
    else m.parameters.filter (fun p => containsSub q.data (toLowerStr p).data)
  { m with filtered := filtered }

/-- A character key while search is active: appended to the search input
(the `textinput` cursor sits at the end) and the filter recomputed. -/
def plTypeInSearch (m : PLModel) (c : Char) : PLModel :=
  filterParameters { m with query := m.query.push c }

/-- A key in search mode: `esc` cancels and clears the filter, `enter`
confirms and keeps it, anything else feeds the search input. -/
def plSearchKey (m : PLModel) (k : PLKey) : PLModel × Option PLOut :=
  match k with
  | .escK =>
    ({ m with searchActive := false, query := "", filtered := m.parameters }, none)
  | .enterK => ({ m with searchActive := false }, none)
  | .typed c => (plTypeInSearch m c, none)
  | .slash => (plTypeInSearch m '/', none)
  | .digit n => (plTypeInSearch m (Char.ofNat ('0'.toNat + n)), none)
  | .keyE => (plTypeInSearch m 'e', none)
  | .keyP => (plTypeInSearch m 'p', none)
  | .keyQ => (plTypeInSearch m 'q', none)
  | _ => (m, none)

/-- A key in normal (non-search, loaded) mode, the
`// Regular navigation` switch: `enter`/`e` view the selected parameter,
`p` jumps to profile selection, `esc` goes back, `q` quits, and `1`-`5`
switch to a recent context — doing nothing at all when the chosen entry
is the current (profile, region) pair. -/
def plNormalKey (m : PLModel) (k : PLKey) : PLModel × Option PLOut :=
  match k with
  | .enterK =>
    match m.filtered.get? m.cursor with
    | some name => (m, some (.viewParameter name))
    | none => (m, none)
  | .keyE =>
    match m.filtered.get? m.cursor with
    | some name => (m, some (.viewParameter name))
    | none => (m, none)
  | .keyP => (m, some .goToProfileSelection)
  | .escK => (m, some .back)
  | .keyQ => (m, some .quitApp)
  | .digit n =>
    if 1 ≤ n && n ≤ 5 then
      match m.recents.get? (n - 1) with
      | some e =>
        if e.profile = m.currentProfile && e.region = m.currentRegion then (m, none)
        else (m, some (.switchRecent e.profile e.region))
      | none => (m, none)
    else (m, none)
  | .navUp => ({ m with cursor := m.cursor - 1 }, none)
  | .navDown =>
    if m.cursor + 1 < m.filtered.length then ({ m with cursor := m.cursor + 1 }, none)
    else (m, none)
  | _ => (m, none)

/-- The `tea.KeyMsg` branch of `ParameterListModel.Update`: `/` opens
search, search mode handles its own keys, normal keys need `!loading`. -/
def plKeyUpdate (m : PLModel) (k : PLKey) : PLModel × Option PLOut :=
  if k = .slash && !m.searchActive && !m.loading then
    ({ m with searchActive := true }, none)
  else if m.searchActive then plSearchKey m k
  else if !m.loading then plNormalKey m k
  else (m, none)

/-- `ParameterListModel.Update`.  The translation follows the source
switch statement case by case; `none` in the second component is "no
outbound message" (spinner ticks and `textinput.Blink` are
presentation-only commands). -/
def plUpdate (m : PLModel) (msg : PLMsg) : PLModel × Option PLOut :=
  match msg with
  | .parametersLoaded ps =>
    ({ m with parameters := ps, filtered := ps, loading := false }, none)
  | .errorArrived e => ({ m with loading := false, err := some e }, none)
  | .key k => plKeyUpdate m k

/-- `SetContext` on the list screen. -/
def plSetContext (m : PLModel) (profile region : String) : PLModel :=
  { m with currentProfile := profile, currentRegion := region }

/-- `SetRecents` on the list screen. -/
def plSetRecents (m : PLModel) (entries : List RecentEntry) : PLModel :=
  { m with recents := entries }

/-- The state mutation of `LoadParameters` (the async fetch itself is the
`listParams` effect of the orchestrator). -/
def plStartLoading (m : PLModel) : PLModel :=
  { m with loading := true, err := none }

/-! ### The parameter-edit screen -/

/-- The state of `ParameterEditModel` relevant to its reducer: the edited
parameter is carried by name/type/value, the `textarea.Model` by its
value.  `jsonData` is the tree `LoadParameter` unmarshalled (a Go
`map[string]interface{}`). -/
structure EditModel where
  parameterName : String
  parameterType : String
  textValue : String
  selectedKey : String
  isJSON : Bool
  jsonData : List (String × JValue)
  saving : Bool
  err : Option String

/-- Effects of the edit reducer: `emitError` is a command that delivers
`types.ErrorMsg` back into the message stream, `putParam` the asynchronous
`client.PutParameter` call, `back` the `types.BackMsg` command. -/
inductive EditEff where
  | noEff : EditEff
  | back : EditEff
  | quitApp : EditEff
  | emitError : String → EditEff
  | putParam : (name value ptype : String) → EditEff

/-- `saveParameter`: sets `saving`, clears `err`; when a JSON key is being
edited it rebuilds the document through `updateJSONValue` (an error there
aborts with an `ErrorMsg` command; a panic propagates, hence `none`) and
marshals it back, otherwise the textarea content is sent verbatim.
Marshalling of these trees cannot fail (`NaN`/`Inf`, the only error case,
is unrepresentable), so the `failed to marshal JSON` branch is absent. -/
def saveParameter (m : EditModel) : Option (EditModel × EditEff) :=
  let m' := { m with saving := true, err := none }
  let newValue := m.textValue
  if m.isJSON && m.selectedKey ≠ "" then
    match updateJSONValue (.obj m.jsonData) m.selectedKey newValue with
    | none => none
    | some (.error e) => some (m', .emitError ("failed to update JSON: " ++ e))
    | some (.ok t) =>
      some (m', .putParam m.parameterName (marshalIndent t) m.parameterType)
  else some (m', .putParam m.parameterName newValue m.parameterType)

/-- Messages of `ParameterEditModel.Update`.  Plain typing keys reach the
embedded `textarea`, whose editing model is outside the scope of the
claims and not modelled; window-size messages only change geometry. -/
inductive EditMsg where
  | saveSuccess : EditMsg
  | errorArrived : String → EditMsg
  | keyEsc | keyCtrlS | keyCtrlC : EditMsg

/-- `ParameterEditModel.Update`: save success navigates back, an error
stops the spinner and is displayed in place, keys are ignored while
saving, `esc` cancels, `ctrl+s` saves, `ctrl+c` quits. -/
def editUpdate (m : EditModel) (msg : EditMsg) : Option (EditModel × EditEff) :=
  match msg with
  | .saveSuccess => some ({ m with saving := false }, .back)
  | .errorArrived e => some ({ m with saving := false, err := some e }, .noEff)
  | .keyEsc => if m.saving then some (m, .noEff) else some (m, .back)
  | .keyCtrlS => if m.saving then some (m, .noEff) else saveParameter m
  | .keyCtrlC => if m.saving then some (m, .noEff) else some (m, .quitApp)

/-! ### The session orchestrator (root `Model.Update`) -/

/-- The five screens. -/
inductive ScreenId where
  | profileSelect | regionSelect | paramList | paramView | paramEdit
deriving DecidableEq, Repr

/-- Go map assignment on the persisted profile→region mapping. -/
def setStrAssoc : List (String × String) → String → String → List (String × String)
  | [], k, v => [(k, v)]
  | (k', v') :: rest, k, v =>
    if k' = k then (k', v) :: rest else (k', v') :: setStrAssoc rest k v

/-- The orchestrator state relevant to the claims: the active screen, the
shared (profile, region) context, the recent-context list with its
keyboard-switch flag, the persisted region defaults, and the two screen
models the claims inspect (profile/region selector and view models hold
presentation state only). -/
structure RootModel where
  currentScreen : ScreenId
  currentProfile : String
  currentRegion : String
  recents : List RecentEntry
  switchingToRecent : Bool
  regionDefaults : List (String × String)
  paramList : PLModel
  paramEdit : EditModel

/-- The messages of the root `Model.Update` modelled here
(`ViewParameterMsg`, `EditParameterMsg` and `SaveSuccessMsg` additionally
involve the view screen and the unmarshalling in `LoadParameter`, which no
claim needs; window-size messages only change geometry). -/
inductive RootMsg where
  | parametersLoaded : List String → RootMsg
  | switchRecent : (profile region : String) → RootMsg
  | errorArrived : String → RootMsg
  | goToProfileSelection : RootMsg
  | back : RootMsg
  | profileSelected : String → RootMsg
  | regionSelected : String → RootMsg

/-- Effects the modelled root transitions schedule: `listParams` is the
asynchronous parameter listing against the (profile, region) handle. -/
inductive RootEff where
  | noEff : RootEff
  | listParams : (profile region : String) → RootEff
deriving DecidableEq, Repr

/-- The root `Model.Update`, case by case from the source.  On
`ParametersLoadedMsg` the recent-context list is promoted only when the
listing is non-empty and the `switchingToRecent` flag is down, the flag is
always reset, and the message is then routed to the active screen.  On
`SwitchRecentMsg` the context is switched, the flag raised, and a fresh
listing scheduled.  `ErrorMsg` is not handled by the root switch and is
only routed to the active screen.  Persistence writes
(`SaveRegionMapping`, `SaveRecentEntries`) are best-effort external
collaborators; the handle pool is external. -/
def rootUpdate (m : RootModel) (msg : RootMsg) : RootModel × RootEff :=
  match msg with
  | .profileSelected p =>
    ({ m with currentProfile := p, currentScreen := .regionSelect }, .noEff)
  | .regionSelected r =>
    let m' := { m with
      currentRegion := r,
      currentScreen := .paramList,
      regionDefaults := setStrAssoc m.regionDefaults m.currentProfile r,
      paramList := plStartLoading (plSetContext m.paramList m.currentProfile r) }
    (m', .listParams m.currentProfile r)
  | .parametersLoaded ps =>
    let promote := !ps.isEmpty && !m.switchingToRecent
    let recents' :=
      if promote then
        addRecentEntry m.recents ⟨m.currentProfile, m.currentRegion⟩ 5
      else m.recents
    let pl0 := if promote then plSetRecents m.paramList recents' else m.paramList
    let m' := { m with recents := recents', switchingToRecent := false, paramList := pl0 }
    match m'.currentScreen with
    | .paramList =>
      ({ m' with paramList := (plUpdate m'.paramList (.parametersLoaded ps)).1 }, .noEff)
    | _ => (m', .noEff)
  | .switchRecent p r =>
    let m' := { m with
      currentProfile := p,
      currentRegion := r,
      regionDefaults := setStrAssoc m.regionDefaults p r,
      switchingToRecent := true,
      currentScreen := .paramList,
      paramList := plStartLoading (plSetContext m.paramList p r) }
    (m', .listParams p r)
  | .errorArrived e =>
    match m.currentScreen with
    | .paramList =>
      ({ m with paramList := (plUpdate m.paramList (.errorArrived e)).1 }, .noEff)
    | .paramEdit =>
      match editUpdate m.paramEdit (.errorArrived e) with
      | some (em, _) => ({ m with paramEdit := em }, .noEff)
      | none => (m, .noEff)
    | _ => (m, .noEff)
  | .goToProfileSelection => ({ m with currentScreen := .profileSelect }, .noEff)
  | .back =>
    match m.currentScreen with
    | .regionSelect => ({ m with currentScreen := .profileSelect }, .noEff)
    | .paramList => ({ m with currentScreen := .regionSelect }, .noEff)
    | .paramView => ({ m with currentScreen := .paramList }, .noEff)
    | .paramEdit => ({ m with currentScreen := .paramView }, .noEff)
    | .profileSelect => (m, .noEff)

/-! ## Claims -/

/-- C1: the failing input.  Against the tree `{"a": [1, 2, 3]}` the path
`a.b[-1]` parses (Sscanf reads the sign), the object step reaches the
array, and the array step's only bound check `part.index >= len(arr)`
passes for `-1`, so `arr[part.index]` panics — in both `getJSONValue` and
`updateJSONValue` — where the claim (and spec §3/§7) require a
read/write failure. -/
theorem c1_negative_index_panics :
    getJSONValue (JValue.obj [("a", JValue.arr [.jflt 1 0, .jflt 1 1, .jflt 3 0])])
      "a.b[-1]" = none
    ∧ updateJSONValue (JValue.obj [("a", JValue.arr [.jflt 1 0, .jflt 1 1, .jflt 3 0])])
      "a.b[-1]" "0" = none :=
  ⟨rfl, rfl⟩

/-- C2, counterexample: a non-integer bracket index is not a resolution
failure.  `fmt.Sscanf(indexStr, "%d", &index)`'s error is discarded, so
`items[abc]` carries index `0`, and against the 3-element array
`["a","b","c"]` Read returns `"a"`, not the empty-string sentinel the
claim requires. -/
theorem c2_counterexample :
    getJSONValue (JValue.arr [.jstr "a", .jstr "b", .jstr "c"]) "items[abc]" = some "a"
    ∧ some "a" ≠ (some "" : Option String) :=
  ⟨rfl, by decide⟩

/-- C2, amended: a non-integer index is parsed as `0` (the scan error is
ignored) and so is not itself a resolution failure; for every tree and
path on which resolution does fail — missing key, index `≥` length, or a
shape mismatch at any step — `getJSONValue` returns the empty string
rather than an error; in particular `items[5]` fails both against
`{"items": ["a","b","c"]}` (shape mismatch: the array step never looks
the key up, so it meets the object) and against the array itself (index
out of range), as does a missing key and a key step into a scalar. -/
theorem c2_failure_reads_empty :
    (∀ (t : JValue) (path : String),
      resolveParts t (parsePath path) = ResolveRes.fail → getJSONValue t path = some "")
    ∧ getJSONValue (JValue.obj [("items", JValue.arr [.jstr "a", .jstr "b", .jstr "c"])])
        "items[5]" = some ""
    ∧ getJSONValue (JValue.arr [.jstr "a", .jstr "b", .jstr "c"]) "items[5]" = some ""
    ∧ getJSONValue (JValue.obj [("a", .jstr "x")]) "b" = some ""
    ∧ getJSONValue (JValue.obj [("a", .jstr "x")]) "a.b" = some "" := by
  refine ⟨?_, rfl, rfl, rfl, rfl⟩
  intro t path h
  simp only [getJSONValue]
  split
  · rfl
  · rw [h]

/-- C2, witness for the amended universal at a concrete failing path. -/
theorem c2_failure_reads_empty_witness :
    resolveParts (JValue.obj [("a", .jstr "x")]) (parsePath "b") = ResolveRes.fail
    ∧ getJSONValue (JValue.obj [("a", .jstr "x")]) "b" = some "" :=
  ⟨rfl, c2_failure_reads_empty.1 (JValue.obj [("a", .jstr "x")]) "b" rfl⟩

/-- Bounds carried by a successful `int64` roundtrip check. -/
theorem isInt64Exact_bounds (mi e : Int) (h : isInt64Exact mi e = true) :
    -(2 ^ 63) ≤ dyadicToInt mi e ∧ dyadicToInt mi e < 2 ^ 63 := by
  unfold isInt64Exact at h
  unfold dyadicToInt
  split_ifs at h with h0 he h1 h2
  · subst h0; norm_num
  · exact ⟨by omega, by omega⟩

/-- Case split on the value `numValue` stores: an in-range `int64` or a
`float64` that fails the roundtrip check. -/
theorem numValue_cases (mi e : Int) :
    (∃ i, numValue mi e = JValue.jint i ∧ -(2 ^ 63) ≤ i ∧ i < 2 ^ 63)
    ∨ (∃ m' e', numValue mi e = JValue.jflt m' e' ∧ isInt64Exact m' e' = false) := by
  unfold numValue
  by_cases hx : isInt64Exact mi e = true
  · simp only [hx, if_true]
    exact Or.inl ⟨_, rfl, isInt64Exact_bounds _ _ hx⟩
  · simp only [Bool.not_eq_true] at hx
    simp only [hx, Bool.false_eq_true, if_false]
    exact Or.inr ⟨mi, e, rfl, hx⟩

/-- C3, counterexample: `"5abc"` is not one of the literal forms, yet it
is not written back verbatim: `Sscanf %f` reads the numeric prefix `5`
and ignores the trailing `abc`, so the stored value is the number `5`. -/
theorem c3_counterexample :
    inferValue "5abc" = JValue.jint 5 ∧ JValue.jint 5 ≠ JValue.jstr "5abc" :=
  ⟨rfl, fun h => JValue.noConfusion h⟩

/-- C3, amended: the replacement value is inferred by trying, in order,
the literal `null`, the literals `true`/`false`, then a numeric scan
(`Sscanf %f`, which accepts any string whose longest leading token is a
decimal float — trailing garbage ignored — and stores it as an `int64`
exactly when the decoded value round-trips through `int64`, else as a
`float64`); only a string rejected by all of these is stored verbatim.
So `"hello"` round-trips as a string, but `"5abc"` becomes the number
`5`. -/
theorem c3_inference_order :
    inferValue "null" = JValue.jnull
    ∧ inferValue "true" = JValue.jbool true
    ∧ inferValue "false" = JValue.jbool false
    ∧ (∀ s, s ≠ "null" → s ≠ "true" → s ≠ "false" → parseNumber s = none →
        inferValue s = JValue.jstr s)
    ∧ (∀ s v, s ≠ "null" → s ≠ "true" → s ≠ "false" → parseNumber s = some v →
        inferValue s = v)
    ∧ (∀ s v, parseNumber s = some v →
        (∃ i, v = JValue.jint i ∧ -(2 ^ 63) ≤ i ∧ i < 2 ^ 63)
        ∨ (∃ m e, v = JValue.jflt m e ∧ isInt64Exact m e = false))
    ∧ inferValue "hello" = JValue.jstr "hello"
    ∧ inferValue "42" = JValue.jint 42
    ∧ inferValue "4.5" = JValue.jflt 9 (-1) := by
  refine ⟨rfl, rfl, rfl, ?_, ?_, ?_, rfl, rfl, rfl⟩
  · intro s h1 h2 h3 h4
    simp [inferValue, h1, h2, h3, h4]
  · intro s v h1 h2 h3 h4
    simp [inferValue, h1, h2, h3, h4]
  · intro s v h
    unfold parseNumber at h
    split at h
    · exact absurd h (by simp)
    · split at h
      · exact absurd h (by simp)
      · obtain rfl := Option.some.inj h
        exact numValue_cases _ _

/-- C3, witness for the amended universals at concrete inputs. -/
theorem c3_inference_order_witness :
    ("hello" ≠ "null" ∧ parseNumber "hello" = none ∧ parseNumber "42" = some (JValue.jint 42))
    ∧ inferValue "hello" = JValue.jstr "hello"
    ∧ ((∃ i, JValue.jint 42 = JValue.jint i ∧ -(2 ^ 63) ≤ i ∧ i < 2 ^ 63)
        ∨ (∃ m e, JValue.jint 42 = JValue.jflt m e ∧ isInt64Exact m e = false)) :=
  ⟨⟨by decide, rfl, rfl⟩,
   c3_inference_order.2.2.2.1 "hello" (by decide) (by decide) (by decide) rfl,
   c3_inference_order.2.2.2.2.2.1 "42" (JValue.jint 42) rfl⟩

/-- C8: selecting a recent-context entry (keys 1-5) whose (profile,
region) pair equals the current pair of the parameter-list screen is a
no-op: the reducer returns the state unchanged and emits no outbound
message (and so dispatches no asynchronous load). -/
theorem c8_recent_same_context_noop :
    ∀ (m : PLModel) (n : Nat) (e : RecentEntry),
      m.loading = false → m.searchActive = false →
      1 ≤ n → n ≤ 5 →
      m.recents[n - 1]? = some e →
      e.profile = m.currentProfile → e.region = m.currentRegion →
      plUpdate m (.key (.digit n)) = (m, none) := by
  intro m n e hl hs h1 h5 hget hp hr
  simp [plUpdate, plKeyUpdate, plNormalKey, hl, hs, h1, h5, hget, hp, hr]

/-- C8, witness: a concrete screen state on the recent entry `1` that is
already current. -/
theorem c8_recent_same_context_noop_witness :
    plUpdate
      { parameters := ["x"], filtered := ["x"], cursor := 0, query := "",
        loading := false, searchActive := false, err := none,
        currentProfile := "p1", currentRegion := "r1",
        recents := [⟨"p1", "r1"⟩, ⟨"p2", "r2"⟩] }
      (.key (.digit 1))
    = ({ parameters := ["x"], filtered := ["x"], cursor := 0, query := "",
         loading := false, searchActive := false, err := none,
         currentProfile := "p1", currentRegion := "r1",
         recents := [⟨"p1", "r1"⟩, ⟨"p2", "r2"⟩] }, none) :=
  c8_recent_same_context_noop _ 1 ⟨"p1", "r1"⟩ rfl rfl (by decide) (by decide) rfl rfl rfl

/-- C9: a path-resolution failure during a save aborts it as an
`ErrorMsg` command; the arriving `ErrorMsg` stops the spinner and records
the error while the edit buffer (textarea content and selected path) is
untouched and no navigation message is emitted; and the orchestrator
routes an `ErrorMsg` to the active edit screen without leaving it. -/
theorem c9_save_error_keeps_editor :
    (∀ (m : EditModel) (e : String),
      m.isJSON = true → m.selectedKey ≠ "" →
      updateJSONValue (.obj m.jsonData) m.selectedKey m.textValue = some (.error e) →
      saveParameter m
        = some ({ m with saving := true, err := none },
                .emitError ("failed to update JSON: " ++ e)))
    ∧ (∀ (m : EditModel) (e : String),
      editUpdate m (.errorArrived e)
        = some ({ m with saving := false, err := some e }, .noEff))
    ∧ (∀ (rm : RootModel) (e : String),
      rm.currentScreen = .paramEdit →
      (rootUpdate rm (.errorArrived e)).1.currentScreen = .paramEdit
      ∧ (rootUpdate rm (.errorArrived e)).1.paramEdit.textValue = rm.paramEdit.textValue
      ∧ (rootUpdate rm (.errorArrived e)).1.paramEdit.selectedKey = rm.paramEdit.selectedKey
      ∧ (rootUpdate rm (.errorArrived e)).2 = .noEff) := by
  refine ⟨?_, ?_, ?_⟩
  · intro m e hj hk hupd
    simp [saveParameter, hj, hk, hupd]
  · intro m e
    rfl
  · intro rm e hscreen
    simp [rootUpdate, hscreen, editUpdate]

/-- C9, witness: a concrete save of `x[9]` against `{"x": []}` fails
resolution (the final array segment meets the object);
the error round-trips through the reducers with the buffer intact. -/
theorem c9_save_error_keeps_editor_witness :
    (updateJSONValue (.obj [("x", JValue.arr [])]) "x[9]" "v"
      = some (.error "expected array at final position"))
    ∧ saveParameter
        { parameterName := "n", parameterType := "String", textValue := "v",
          selectedKey := "x[9]", isJSON := true,
          jsonData := [("x", JValue.arr [])], saving := false, err := none }
      = some ({ parameterName := "n", parameterType := "String", textValue := "v",
                selectedKey := "x[9]", isJSON := true,
                jsonData := [("x", JValue.arr [])], saving := true, err := none },
          .emitError "failed to update JSON: expected array at final position") :=
  ⟨rfl,
   c9_save_error_keeps_editor.1
     { parameterName := "n", parameterType := "String", textValue := "v",
       selectedKey := "x[9]", isJSON := true,
       jsonData := [("x", JValue.arr [])], saving := false, err := none }
     "expected array at final position" rfl (by decide) rfl⟩

/-- C10: a whole-value save (`!(isJSON && selectedKey != "")`) sends the
textarea content to `PutParameter` verbatim — no literal-type inference;
only a save of a selected structured path rebuilds the document through
`updateJSONValue` (where inference happens) and sends the re-marshalled
JSON. -/
theorem c10_whole_value_save_verbatim :
    (∀ m : EditModel, ¬(m.isJSON = true ∧ m.selectedKey ≠ "") →
      saveParameter m
        = some ({ m with saving := true, err := none },
                .putParam m.parameterName m.textValue m.parameterType))
    ∧ (∀ (m : EditModel) (t : JValue), m.isJSON = true → m.selectedKey ≠ "" →
      updateJSONValue (.obj m.jsonData) m.selectedKey m.textValue = some (.ok t) →
      saveParameter m
        = some ({ m with saving := true, err := none },
                .putParam m.parameterName (marshalIndent t) m.parameterType)) := by
  constructor
  · intro m hnot
    by_cases hj : m.isJSON = true
    · have hk : m.selectedKey = "" := by
        by_contra hne
        exact hnot ⟨hj, hne⟩
      simp [saveParameter, hj, hk]
    · have hj' : m.isJSON = false := by
        revert hj
        cases m.isJSON <;> simp
      simp [saveParameter, hj']
  · intro m t hj hk hupd
    simp [saveParameter, hj, hk, hupd]

/-- C10, witness: a non-JSON parameter saves the buffer verbatim — even a
numeric-looking buffer like `"42"`; and with a selected path the same
buffer is inferred and marshalled. -/
theorem c10_whole_value_save_verbatim_witness :
    saveParameter
      { parameterName := "n", parameterType := "String", textValue := "42",
        selectedKey := "", isJSON := false, jsonData := [],
        saving := false, err := none }
      = some ({ parameterName := "n", parameterType := "String", textValue := "42",
                selectedKey := "", isJSON := false, jsonData := [],
                saving := true, err := none }, .putParam "n" "42" "String")
    ∧ saveParameter
      { parameterName := "n", parameterType := "String", textValue := "42",
        selectedKey := "a", isJSON := true, jsonData := [("a", JValue.jstr "old")],
        saving := false, err := none }
      = some ({ parameterName := "n", parameterType := "String", textValue := "42",
                selectedKey := "a", isJSON := true, jsonData := [("a", JValue.jstr "old")],
                saving := true, err := none },
        .putParam "n" "\x7b\n  \"a\": 42\n\x7d" "String") :=
  ⟨c10_whole_value_save_verbatim.1 _ (by simp),
   c10_whole_value_save_verbatim.2 _ (JValue.obj [("a", JValue.jint 42)]) rfl (by decide) rfl⟩

/-- C6: on a `ParametersLoadedMsg` the recent-context list is unchanged
whenever the listing is empty or the `switchingToRecent` flag is up (the
flag a `SwitchRecentMsg` raises, and which the handler then resets); only
a non-empty listing on the normal path promotes the current
(profile, region) pair, via the bounded deduplicating front-insertion; a
recent-switch itself never touches the list, so selecting a recent entry
never changes that entry's rank. -/
theorem c6_recents_stability :
    (∀ (m : RootModel) (ps : List String),
      ps = [] ∨ m.switchingToRecent = true →
      (rootUpdate m (.parametersLoaded ps)).1.recents = m.recents)
    ∧ (∀ (m : RootModel) (ps : List String),
      ps ≠ [] → m.switchingToRecent = false →
      (rootUpdate m (.parametersLoaded ps)).1.recents
        = addRecentEntry m.recents ⟨m.currentProfile, m.currentRegion⟩ 5)
    ∧ (∀ (m : RootModel) (ps : List String),
      (rootUpdate m (.parametersLoaded ps)).1.switchingToRecent = false)
    ∧ (∀ (m : RootModel) (p r : String),
      (rootUpdate m (.switchRecent p r)).1.switchingToRecent = true
      ∧ (rootUpdate m (.switchRecent p r)).1.recents = m.recents) := by
  refine ⟨?_, ?_, ?_, ?_⟩
  · intro m ps h
    rcases h with h | h
    · subst h
      simp only [rootUpdate]
      cases m.currentScreen <;> simp [plUpdate]
    · simp only [rootUpdate, h]
      cases m.currentScreen <;> simp [plUpdate]
  · intro m ps hps hsw
    simp only [rootUpdate, hsw]
    have : ps.isEmpty = false := by
      cases ps
      · exact absurd rfl hps
      · rfl
    cases m.currentScreen <;> simp [plUpdate, this]
  · intro m ps
    simp only [rootUpdate]
    cases m.currentScreen <;> simp [plUpdate]
  · intro m p r
    exact ⟨rfl, rfl⟩

/-- C6, witness: the three universal parts at a concrete state — an
empty listing and a recent-switch listing leave the recents alone; the
same non-empty listing on the normal path promotes the current pair. -/
theorem c6_recents_stability_witness :
    (rootUpdate
      { currentScreen := .paramList, currentProfile := "p2", currentRegion := "r2",
        recents := [⟨"p1", "r1"⟩], switchingToRecent := false, regionDefaults := [],
        paramList := { parameters := [], filtered := [], cursor := 0, query := "",
                       loading := true, searchActive := false, err := none,
                       currentProfile := "p2", currentRegion := "r2",
                       recents := [⟨"p1", "r1"⟩] },
        paramEdit := { parameterName := "", parameterType := "", textValue := "",
                       selectedKey := "", isJSON := false, jsonData := [],
                       saving := false, err := none } }
      (.parametersLoaded [])).1.recents = [⟨"p1", "r1"⟩]
    ∧ (rootUpdate
      { currentScreen := .paramList, currentProfile := "p2", currentRegion := "r2",
        recents := [⟨"p1", "r1"⟩], switchingToRecent := true, regionDefaults := [],
        paramList := { parameters := [], filtered := [], cursor := 0, query := "",
                       loading := true, searchActive := false, err := none,
                       currentProfile := "p2", currentRegion := "r2",
                       recents := [⟨"p1", "r1"⟩] },
        paramEdit := { parameterName := "", parameterType := "", textValue := "",
                       selectedKey := "", isJSON := false, jsonData := [],
                       saving := false, err := none } }
      (.parametersLoaded ["a"])).1.recents = [⟨"p1", "r1"⟩]
    ∧ (rootUpdate
      { currentScreen := .paramList, currentProfile := "p2", currentRegion := "r2",
        recents := [⟨"p1", "r1"⟩], switchingToRecent := false, regionDefaults := [],
        paramList := { parameters := [], filtered := [], cursor := 0, query := "",
                       loading := true, searchActive := false, err := none,
                       currentProfile := "p2", currentRegion := "r2",
                       recents := [⟨"p1", "r1"⟩] },
        paramEdit := { parameterName := "", parameterType := "", textValue := "",
                       selectedKey := "", isJSON := false, jsonData := [],
                       saving := false, err := none } }
      (.parametersLoaded ["a"])).1.recents = [⟨"p2", "r2"⟩, ⟨"p1", "r1"⟩] :=
  ⟨c6_recents_stability.1 _ [] (Or.inl rfl),
   c6_recents_stability.1 _ ["a"] (Or.inr rfl),
   c6_recents_stability.2.1 _ ["a"] (by decide) rfl⟩

/-- Go map assignment makes the key readable: looking up the written key
after `objSet` finds the new value. -/
theorem lookup_objSet (l : List (String × JValue)) (k : String) (nv : JValue) :
    (objSet l k nv).lookup k = some nv := by
  induction l with
  | nil => simp [objSet, List.lookup]
  | cons hd tl ih =>
    obtain ⟨k', v'⟩ := hd
    by_cases h : k' = k
    · subst h
      simp [objSet, List.lookup]
    · simp only [objSet, h, if_false]
      have : (k == k') = false := by
        simp [Ne.symm h]
      simp [List.lookup, this, ih]

/-- One-step unfolding of `updateParts` on a non-final segment (stated by
`rfl`; used to rewrite a single layer without unfolding the recursive
call). -/
theorem updateParts_cons_cons (v : JValue) (part r2 : PathPart) (rs : List PathPart)
    (nv : JValue) :
    updateParts v (part :: r2 :: rs) nv =
      (if part.isArray then
        match v with
        | .arr l =>
          if (l.length : Int) ≤ part.index then
            some (.error ("index out of range at " ++ part.key))
          else if part.index < 0 then none
          else
            match l.get? part.index.toNat with
            | none => none
            | some c =>
              match updateParts c (r2 :: rs) nv with
              | none => none
              | some (.error e) => some (.error e)
              | some (.ok c') => some (.ok (.arr (l.set part.index.toNat c')))
        | _ => some (.error ("expected array at " ++ part.key))
      else
        match v with
        | .obj l =>
          match l.lookup part.key with
          | none => some (.error ("key not found: " ++ part.key))
          | some c =>
            match updateParts c (r2 :: rs) nv with
            | none => none
            | some (.error e) => some (.error e)
            | some (.ok c') => some (.ok (.obj (objSet l part.key c')))
        | _ => some (.error ("expected object at " ++ part.key))) := rfl

/-- One-step unfolding of `resolveParts` on a segment (stated by `rfl`). -/
theorem resolveParts_cons (v : JValue) (part : PathPart) (rest : List PathPart) :
    resolveParts v (part :: rest) =
      (if part.isArray then
        match v with
        | .arr l =>
          if (l.length : Int) ≤ part.index then .fail
          else if part.index < 0 then .crash
          else
            match l.get? part.index.toNat with
            | some c => resolveParts c rest
            | none => .crash
        | _ => .fail
      else
        match v with
        | .obj l =>
          match l.lookup part.key with
          | some c => resolveParts c rest
          | none => .fail
        | _ => .fail) := rfl

/-- Navigation is deterministic, so re-reading the path a successful
write took reaches exactly the written value: the key correctness
property behind the write/read roundtrip. -/
theorem resolve_after_update :
    ∀ (parts : List PathPart) (v nv v' : JValue),
      updateParts v parts nv = some (.ok v') → resolveParts v' parts = .ok nv := by
  intro parts
  induction parts with
  | nil =>
    intro v nv v' h
    simp [updateParts] at h
  | cons part rest ih =>
    intro v nv v' h
    cases rest with
    | nil =>
      rcases Bool.dichotomy part.isArray with hA | hA
      · cases v with
        | obj l =>
          simp only [updateParts, hA, Bool.false_eq_true, if_false,
            Option.some.injEq, Except.ok.injEq] at h
          subst h
          simp [resolveParts, hA, lookup_objSet]
        | arr l => exact absurd h (by simp [updateParts, hA])
        | jstr s => exact absurd h (by simp [updateParts, hA])
        | jint i => exact absurd h (by simp [updateParts, hA])
        | jflt mm ee => exact absurd h (by simp [updateParts, hA])
        | jbool b => exact absurd h (by simp [updateParts, hA])
        | jnull => exact absurd h (by simp [updateParts, hA])
      · cases v with
        | arr l =>
          simp only [updateParts, hA, if_true] at h
          by_cases h1 : (l.length : Int) ≤ part.index
          · rw [if_pos h1] at h
            exact absurd h (by simp)
          · rw [if_neg h1] at h
            by_cases h2 : part.index < 0
            · rw [if_pos h2] at h
              exact absurd h (by simp)
            · rw [if_neg h2] at h
              simp only [Option.some.injEq, Except.ok.injEq] at h
              subst h
              have hlt : part.index.toNat < l.length := by omega
              have hlt2 : part.index < (l.length : Int) := by omega
              have h1' : ¬ ((l.set part.index.toNat nv).length : Int) ≤ part.index := by
                rw [List.length_set]
                exact h1
              simp [resolveParts, hA, h1', h2, List.getElem?_set_self hlt, hlt2]
        | obj l => exact absurd h (by simp [updateParts, hA])
        | jstr s => exact absurd h (by simp [updateParts, hA])
        | jint i => exact absurd h (by simp [updateParts, hA])
        | jflt mm ee => exact absurd h (by simp [updateParts, hA])
        | jbool b => exact absurd h (by simp [updateParts, hA])
        | jnull => exact absurd h (by simp [updateParts, hA])
    | cons r2 rs =>
      rcases Bool.dichotomy part.isArray with hA | hA
      · cases v with
        | obj l =>
          rw [updateParts_cons_cons] at h
          simp only [hA, Bool.false_eq_true, if_false] at h
          cases hg : l.lookup part.key with
          | none => simp only [hg] at h; exact absurd h (by simp)
          | some c =>
            simp only [hg] at h
            cases hu : updateParts c (r2 :: rs) nv with
            | none => simp only [hu] at h; exact absurd h (by simp)
            | some res =>
              simp only [hu] at h
              cases res with
              | error e => exact absurd h (by simp)
              | ok c' =>
                simp only [Option.some.injEq, Except.ok.injEq] at h
                subst h
                rw [resolveParts_cons]
                simp [hA, lookup_objSet, ih c nv c' hu]
        | arr l => exact absurd h (by simp [updateParts, hA])
        | jstr s => exact absurd h (by simp [updateParts, hA])
        | jint i => exact absurd h (by simp [updateParts, hA])
        | jflt mm ee => exact absurd h (by simp [updateParts, hA])
        | jbool b => exact absurd h (by simp [updateParts, hA])
        | jnull => exact absurd h (by simp [updateParts, hA])
      · cases v with
        | arr l =>
          rw [updateParts_cons_cons] at h
          simp only [hA, if_true] at h
          by_cases h1 : (l.length : Int) ≤ part.index
          · rw [if_pos h1] at h
            exact absurd h (by simp)
          · rw [if_neg h1] at h
            by_cases h2 : part.index < 0
            · rw [if_pos h2] at h
              exact absurd h (by simp)
            · rw [if_neg h2] at h
              cases hg : l.get? part.index.toNat with
              | none => simp only [hg] at h; exact absurd h (by simp)
              | some c =>
                simp only [hg] at h
                cases hu : updateParts c (r2 :: rs) nv with
                | none => simp only [hu] at h; exact absurd h (by simp)
                | some res =>
                  simp only [hu] at h
                  cases res with
                  | error e => exact absurd h (by simp)
                  | ok c' =>
                    simp only [Option.some.injEq, Except.ok.injEq] at h
                    subst h
                    have hlt : part.index.toNat < l.length := by omega
                    have hlt2 : part.index < (l.length : Int) := by omega
                    have h1' :
                        ¬ ((l.set part.index.toNat c').length : Int) ≤ part.index := by
                      rw [List.length_set]
                      exact h1
                    rw [resolveParts_cons]
                    simp [hA, h1', h2, hlt2,
                      List.getElem?_set_self hlt, ih c nv c' hu]
        | obj l => exact absurd h (by simp [updateParts, hA])
        | jstr s => exact absurd h (by simp [updateParts, hA])
        | jint i => exact absurd h (by simp [updateParts, hA])
        | jflt mm ee => exact absurd h (by simp [updateParts, hA])
        | jbool b => exact absurd h (by simp [updateParts, hA])
        | jnull => exact absurd h (by simp [updateParts, hA])

/-- C5: writing a raw string at a path and reading the same path back
returns the written value re-rendered through literal-type inference:
`"42"` reads back as `"42"` (stored as the number 42), `"true"` as
`"true"` (stored as the boolean), and the non-literal `"hello"`
round-trips unchanged as the string `"hello"` — for every tree and every
path at which the write succeeds. -/
theorem c5_write_read_roundtrip :
    (∀ (t : JValue) (p : String) (t' : JValue),
      updateJSONValue t p "42" = some (.ok t') → getJSONValue t' p = some "42")
    ∧ (∀ (t : JValue) (p : String) (t' : JValue),
      updateJSONValue t p "true" = some (.ok t') → getJSONValue t' p = some "true")
    ∧ (∀ (t : JValue) (p : String) (t' : JValue),
      updateJSONValue t p "hello" = some (.ok t') → getJSONValue t' p = some "hello") := by
  have main : ∀ (s out : String), goFormatValue (inferValue s) = out →
      ∀ (t : JValue) (p : String) (t' : JValue),
        updateJSONValue t p s = some (.ok t') → getJSONValue t' p = some out := by
    intro s out hout t p t' h
    simp only [updateJSONValue] at h
    by_cases hp : (parsePath p).isEmpty = true
    · rw [if_pos hp] at h
      simp at h
    · rw [if_neg hp] at h
      have hres := resolve_after_update (parsePath p) t (inferValue s) t' h
      simp [getJSONValue, hp, hres, hout]
  exact ⟨main "42" "42" rfl, main "true" "true" rfl, main "hello" "hello" rfl⟩

/-- C5, witness: writing `"42"` over `{"a": null}` at `a` succeeds and
reads back as `"42"`. -/
theorem c5_write_read_roundtrip_witness :
    updateJSONValue (JValue.obj [("a", JValue.jnull)]) "a" "42"
      = some (.ok (JValue.obj [("a", JValue.jint 42)]))
    ∧ getJSONValue (JValue.obj [("a", JValue.jint 42)]) "a" = some "42" :=
  ⟨rfl, c5_write_read_roundtrip.1 (JValue.obj [("a", JValue.jnull)]) "a"
    (JValue.obj [("a", JValue.jint 42)]) rfl⟩

/-- In bracket mode with no `]` ahead the parser can only reach the
end-of-input failure. -/
theorem parseLoop_bracket_no_rbrack :
    ∀ (l : List Char) (key idx cur : List Char) (acc : List PathPart),
      ']' ∉ l → parseLoop l (.bracket key idx) cur acc = none := by
  intro l
  induction l with
  | nil => intro key idx cur acc _; rfl
  | cons c rest ih =>
    intro key idx cur acc hmem
    have hc : c ≠ ']' := fun h => hmem (h ▸ List.mem_cons_self c rest)
    have hrest : ']' ∉ rest := fun h => hmem (List.mem_cons_of_mem c h)
    simp only [parseLoop, hc, if_false]
    exact ih _ _ _ _ hrest

/-- A `[` that immediately follows a key character and has no `]` at or
after it makes the whole parse fail, no matter what came before: any
parser state entering that suffix ends in the bracket-mode end-of-input
failure. -/
theorem parseLoop_unterminated :
    ∀ (l₁ : List Char) (c : Char) (l₂ : List Char) (mode : PMode)
      (cur : List Char) (acc : List PathPart),
      c ≠ '.' → c ≠ '[' → c ≠ ']' → ']' ∉ l₂ →
      parseLoop (l₁ ++ c :: '[' :: l₂) mode cur acc = none := by
  intro l₁
  induction l₁ with
  | nil =>
    intro c l₂ mode cur acc hc1 hc2 hc3 hl2
    cases mode with
    | normal =>
      simp only [List.nil_append, parseLoop, hc1, hc2, hc3, if_false]
      have : (cur ++ [c]).isEmpty = false := by
        simp [List.isEmpty_iff]
      simp only [parseLoop, this, reduceCtorEq, if_false, if_true, Bool.false_eq_true]
      exact parseLoop_bracket_no_rbrack _ _ _ _ _ hl2
    | bracket key idx =>
      simp only [List.nil_append, parseLoop, hc3, if_false]
      have : ('[' : Char) ≠ ']' := by decide
      simp only [parseLoop, this, if_false]
      exact parseLoop_bracket_no_rbrack _ _ _ _ _ hl2
  | cons d t ih =>
    intro c l₂ mode cur acc hc1 hc2 hc3 hl2
    cases mode with
    | normal =>
      by_cases hd1 : d = '.'
      · simp only [List.cons_append, parseLoop, hd1, if_true]
        exact ih c l₂ .normal _ _ hc1 hc2 hc3 hl2
      · by_cases hd2 : d = '['
        · simp only [List.cons_append, parseLoop, hd1, hd2, if_false, if_true]
          by_cases hcur : cur.isEmpty
          · simp only [hcur, if_true]
            exact ih c l₂ .normal _ _ hc1 hc2 hc3 hl2
          · simp only [hcur, Bool.false_eq_true, if_false]
            exact ih c l₂ (.bracket cur []) _ _ hc1 hc2 hc3 hl2
        · by_cases hd3 : d = ']'
          · simp only [List.cons_append, parseLoop, hd1, hd2, hd3, if_false, if_true]
            exact ih c l₂ .normal _ _ hc1 hc2 hc3 hl2
          · simp only [List.cons_append, parseLoop, hd1, hd2, hd3, if_false]
            exact ih c l₂ .normal _ _ hc1 hc2 hc3 hl2
    | bracket key idx =>
      by_cases hd : d = ']'
      · simp only [List.cons_append, parseLoop, hd, if_true]
        exact ih c l₂ .normal _ _ hc1 hc2 hc3 hl2
      · simp only [List.cons_append, parseLoop, hd, if_false]
        exact ih c l₂ (.bracket key (idx ++ [d])) _ _ hc1 hc2 hc3 hl2

/-- A path of only dots parses to the empty segment sequence. -/
theorem parseLoop_dots :
    ∀ (n : Nat) (acc : List PathPart),
      parseLoop (List.replicate n '.') .normal [] acc = some acc := by
  intro n
  induction n with
  | zero => intro acc; simp [parseLoop, closeKey]
  | succ k ih =>
    intro acc
    simp only [List.replicate_succ, parseLoop, if_true, closeKey, List.isEmpty_nil,
      if_true, List.append_nil]
    exact ih acc

/-- C4, counterexample: a path with an unterminated `[` can still yield
segments.  In `"[abc"` the `[` arrives while the token accumulator is
empty, so the source skips it instead of searching for `]`; the remainder
parses as the object-key segment `abc` even though the `[` is never
terminated. -/
theorem c4_counterexample :
    parsePath "[abc" = [⟨"abc", false, 0⟩]
    ∧ parsePath "[abc" ≠ [] :=
  ⟨rfl, by decide⟩

/-- C4, amended: segments are separated by dots; `items[0]` parses as the
single array-index segment (its key token is converted, not kept as a
separate object-key segment); an empty path or a path of only dots yields
the empty segment sequence; and an unterminated `[` makes the parse fail
(returning no segments, conflated with the empty sequence by Go's `nil`)
provided the `[` immediately follows a key character — a `[` arriving on
an empty token accumulator is skipped rather than opening an index. -/
theorem c4_path_grammar :
    parsePath "items[0]" = [⟨"items", true, 0⟩]
    ∧ parsePath "" = []
    ∧ (∀ n : Nat, parsePath (String.mk (List.replicate n '.')) = [])
    ∧ parsePath "items[0" = []
    ∧ (∀ (l₁ : List Char) (c : Char) (l₂ : List Char),
      c ≠ '.' → c ≠ '[' → c ≠ ']' → ']' ∉ l₂ →
      parsePath (String.mk (l₁ ++ c :: '[' :: l₂)) = []) := by
  refine ⟨rfl, rfl, ?_, rfl, ?_⟩
  · intro n
    simp [parsePath, parseLoop_dots n []]
  · intro l₁ c l₂ hc1 hc2 hc3 hl2
    simp [parsePath, parseLoop_unterminated l₁ c l₂ .normal [] [] hc1 hc2 hc3 hl2]

/-- C4, witness: the general unterminated-bracket failure at the concrete
path `items[0` (split as `item` ++ `s` ++ `[` ++ `0`). -/
theorem c4_path_grammar_witness :
    (('s' : Char) ≠ '.' ∧ (']' : Char) ∉ ['0'])
    ∧ parsePath (String.mk ("item".data ++ 's' :: '[' :: "0".data)) = [] :=
  ⟨⟨by decide, by decide⟩,
   c4_path_grammar.2.2.2.2 "item".data 's' "0".data
     (by decide) (by decide) (by decide) (by decide)⟩

/-! ### Order lemmas for the key sort -/

/-- Connectedness: two lists neither of which is lexicographically below
the other are equal. -/
theorem charListLt_conn :
    ∀ (x y : List Char), charListLt x y = false → charListLt y x = false → x = y := by
  intro x
  induction x with
  | nil =>
    intro y h1 _
    cases y with
    | nil => rfl
    | cons b bs => simp [charListLt] at h1
  | cons a as ih =>
    intro y h1 h2
    cases y with
    | nil => simp [charListLt] at h2
    | cons b bs =>
      simp only [charListLt] at h1 h2
      by_cases hab : a < b
      · simp [hab] at h1
      · by_cases hba : b < a
        · simp [hba, hab] at h2
        · simp only [hab, hba, if_false] at h1 h2
          have : a = b := le_antisymm (not_lt.mp hba) (not_lt.mp hab)
          rw [this, ih bs h1 h2]

/-- Asymmetry of the lexicographic order. -/
theorem charListLt_asymm :
    ∀ (x y : List Char), charListLt x y = true → charListLt y x = false := by
  intro x
  induction x with
  | nil =>
    intro y h
    cases y with
    | nil => simp [charListLt] at h
    | cons b bs => simp [charListLt]
  | cons a as ih =>
    intro y h
    cases y with
    | nil => simp [charListLt] at h
    | cons b bs =>
      simp only [charListLt] at h ⊢
      by_cases hab : a < b
      · have hba : ¬ b < a := lt_asymm hab
        simp [hab, hba]
      · by_cases hba : b < a
        · simp [hab, hba] at h
        · simp only [hab, hba, if_false] at h ⊢
          exact ih bs h

/-- Totality of the string comparison. -/
theorem strLeB_total (a b : String) (h : strLeB a b = false) : strLeB b a = true := by
  unfold strLeB at h ⊢
  simp only [Bool.not_eq_false'] at h
  simp [charListLt_asymm _ _ h]

/-- Antisymmetry of the string comparison. -/
theorem strLeB_antisymm (a b : String) (h1 : strLeB a b = true) (h2 : strLeB b a = true) :
    a = b := by
  unfold strLeB at h1 h2
  simp only [Bool.not_eq_true'] at h1 h2
  have hd := charListLt_conn _ _ h2 h1
  cases a with
  | mk da =>
    cases b with
    | mk db => exact congrArg String.mk hd

/-- The entry order used by the key sort. -/
def entLe (a b : String × JValue) : Prop := strLeB a.1 b.1 = true

/-- Inserting permutes to consing. -/
theorem insEnt_perm (e : String × JValue) :
    ∀ (l : List (String × JValue)), (insEnt e l).Perm (e :: l) := by
  intro l
  induction l with
  | nil => simp [insEnt]
  | cons f rest ih =>
    simp only [insEnt]
    by_cases h : strLeB e.1 f.1
    · simp [h]
    · simp only [h, Bool.false_eq_true, if_false]
      exact (ih.cons f).trans (List.Perm.swap e f rest)

/-- The sort permutes its input. -/
theorem sortEnts_perm : ∀ (l : List (String × JValue)), (sortEnts l).Perm l := by
  intro l
  induction l with
  | nil => simp [sortEnts]
  | cons e rest ih =>
    exact (insEnt_perm e (sortEnts rest)).trans (ih.cons e)

/-- Transitivity of the lexicographic order. -/
theorem charListLt_trans :
    ∀ (x y z : List Char), charListLt x y = true → charListLt y z = true →
      charListLt x z = true := by
  intro x
  induction x with
  | nil =>
    intro y z h1 h2
    cases y with
    | nil => simp [charListLt] at h1
    | cons b bs =>
      cases z with
      | nil => simp [charListLt] at h2
      | cons c cs => simp [charListLt]
  | cons a as ih =>
    intro y z h1 h2
    cases y with
    | nil => simp [charListLt] at h1
    | cons b bs =>
      cases z with
      | nil => simp [charListLt] at h2
      | cons c cs =>
        simp only [charListLt] at h1 h2 ⊢
        by_cases hab : a < b
        · by_cases hbc : b < c
          · simp [lt_trans hab hbc]
          · by_cases hcb : c < b
            · simp [hbc, hcb] at h2
            · have : b = c := le_antisymm (not_lt.mp hcb) (not_lt.mp hbc)
              subst this
              simp [hab]
        · by_cases hba : b < a
          · simp [hab, hba] at h1
          · have hab' : a = b := le_antisymm (not_lt.mp hba) (not_lt.mp hab)
            subst hab'
            simp only [hab, hba, if_false] at h1
            by_cases hac : a < c
            · simp [hac]
            · by_cases hca : c < a
              · simp [hac, hca] at h2
              · simp only [hac, hca, if_false] at h2 ⊢
                exact ih bs cs h1 h2

/-- Transitivity of the string comparison. -/
theorem strLeB_trans (a b c : String) (h1 : strLeB a b = true) (h2 : strLeB b c = true) :
    strLeB a c = true := by
  unfold strLeB at h1 h2 ⊢
  simp only [Bool.not_eq_true'] at h1 h2
  simp only [Bool.not_eq_true']
  rcases Bool.dichotomy (charListLt c.data a.data) with hca | hca
  · exact hca
  · rcases Bool.dichotomy (charListLt a.data b.data) with hab | hab
    · have hba := charListLt_conn _ _ h1 hab
      rw [← hba] at hca
      rw [h2] at hca
      cases hca
    · have := charListLt_trans _ _ _ hca hab
      rw [h2] at this
      cases this

/-- Transitivity of the entry order. -/
theorem entLe_trans {a b c : String × JValue} (h1 : entLe a b) (h2 : entLe b c) :
    entLe a c :=
  strLeB_trans _ _ _ h1 h2

/-- Inserting into a sorted list keeps it sorted. -/
theorem insEnt_pairwise (e : String × JValue) :
    ∀ (l : List (String × JValue)), l.Pairwise entLe → (insEnt e l).Pairwise entLe := by
  intro l
  induction l with
  | nil => intro _; simp [insEnt, entLe]
  | cons f rest ih =>
    intro hp
    rcases List.pairwise_cons.mp hp with ⟨hf, hrest⟩
    simp only [insEnt]
    by_cases h : strLeB e.1 f.1 = true
    · simp only [h, if_true]
      refine List.Pairwise.cons ?_ hp
      intro a ha
      rcases List.mem_cons.mp ha with rfl | ha
      · exact h
      · exact entLe_trans h (hf a ha)
    · simp only [h, if_false]
      refine List.Pairwise.cons ?_ (ih hrest)
      intro a ha
      have ha2 := ((insEnt_perm e rest).mem_iff).mp ha
      rcases List.mem_cons.mp ha2 with rfl | ha3
      · exact strLeB_total _ _ (by simpa using h)
      · exact hf a ha3

/-- The sort sorts. -/
theorem sortEnts_pairwise : ∀ (l : List (String × JValue)), (sortEnts l).Pairwise entLe := by
  intro l
  induction l with
  | nil => simp [sortEnts]
  | cons e rest ih => exact insEnt_pairwise e (sortEnts rest) ih

/-- Sorted permutations with duplicate-free keys are equal. -/
theorem sorted_nodupkeys_eq :
    ∀ (xs ys : List (String × JValue)), xs.Perm ys →
      xs.Pairwise entLe → ys.Pairwise entLe → (xs.map Prod.fst).Nodup → xs = ys := by
  intro xs
  induction xs with
  | nil =>
    intro ys hperm _ _ _
    exact (List.perm_nil.mp hperm.symm).symm
  | cons x xs ih =>
    intro ys hperm hxs hys hnd
    cases ys with
    | nil => exact absurd (List.perm_nil.mp hperm) (by simp)
    | cons y ys' =>
      have hxy : x = y := by
        have hx_mem : x ∈ y :: ys' := hperm.mem_iff.mp (List.mem_cons_self x xs)
        have hy_mem : y ∈ x :: xs := hperm.symm.mem_iff.mp (List.mem_cons_self y ys')
        rcases List.mem_cons.mp hx_mem with h | hx_in
        · exact h
        · rcases List.mem_cons.mp hy_mem with h | hy_in
          · exact h.symm
          · have h1 : entLe y x := List.rel_of_pairwise_cons hys hx_in
            have h2 : entLe x y := List.rel_of_pairwise_cons hxs hy_in
            have hk : x.1 = y.1 := strLeB_antisymm _ _ h2 h1
            have : x.1 ∈ xs.map Prod.fst := by
              rw [hk]
              exact List.mem_map_of_mem Prod.fst hy_in
            simp only [List.map_cons, List.nodup_cons] at hnd
            exact absurd this hnd.1
      subst hxy
      have hperm' := hperm.cons_inv
      have hnd' : (xs.map Prod.fst).Nodup := by
        simp only [List.map_cons, List.nodup_cons] at hnd
        exact hnd.2
      rw [ih ys' hperm' (List.pairwise_cons.mp hxs).2 (List.pairwise_cons.mp hys).2 hnd']

/-- A permutation with duplicate-free keys sorts identically. -/
theorem sortEnts_eq_of_perm (l l' : List (String × JValue)) (hperm : l.Perm l')
    (hnd : (l.map Prod.fst).Nodup) : sortEnts l = sortEnts l' := by
  refine sorted_nodupkeys_eq _ _ ?_ (sortEnts_pairwise l) (sortEnts_pairwise l') ?_
  · exact (sortEnts_perm l).trans (hperm.trans (sortEnts_perm l').symm)
  · exact (((sortEnts_perm l).map Prod.fst).nodup_iff).mpr hnd

/-- `entsSize` only counts the multiset of entries. -/
theorem entsSize_perm {l l' : List (String × JValue)} (h : l.Perm l') :
    entsSize l = entsSize l' := by
  induction h with
  | nil => rfl
  | cons e _ ih => simp [entsSize, ih]
  | swap a b rest => simp [entsSize]; omega
  | trans _ _ ih1 ih2 => exact ih1.trans ih2

/-- The boolean comparison agrees with core's lexicographic `List.lt`. -/
theorem charListLt_iff : ∀ (x y : List Char), charListLt x y = true ↔ x.lt y := by
  intro x
  induction x with
  | nil =>
    intro y
    cases y with
    | nil =>
      constructor
      · intro h; simp [charListLt] at h
      · intro h; nomatch h
    | cons b bs =>
      constructor
      · intro _; exact List.lt.nil b bs
      · intro _; rfl
  | cons a as ih =>
    intro y
    cases y with
    | nil =>
      constructor
      · intro h; simp [charListLt] at h
      · intro h; nomatch h
    | cons b bs =>
      simp only [charListLt]
      by_cases hab : a < b
      · simp only [hab, if_true]
        constructor
        · intro _; exact List.lt.head as bs hab
        · intro _; trivial
      · by_cases hba : b < a
        · simp only [hab, hba, if_true, if_false]
          constructor
          · intro h; exact absurd h (by simp)
          · intro h
            cases h with
            | head _ _ h2 => exact absurd h2 hab
            | tail h1 h2 h3 => exact absurd hba h2
        · simp only [hab, hba, if_false]
          constructor
          · intro h; exact List.lt.tail hab hba ((ih bs).mp h)
          · intro h
            cases h with
            | head _ _ h2 => exact absurd h2 hab
            | tail _ h2 h3 => exact (ih bs).mpr h3

/-- The boolean comparison agrees with the string order (`sort.Strings`
sorts by exactly this `≤`). -/
theorem strLeB_iff (a b : String) : strLeB a b = true ↔ a ≤ b := by
  unfold strLeB
  simp only [Bool.not_eq_true']
  constructor
  · intro h hba
    have hlex : List.Lex (· < ·) b.data a.data := String.lt_iff_toList_lt.mp hba
    have hlt : b.data.lt a.data := (List.lt_iff_lex_lt _ _).mpr hlex
    have h2 := (charListLt_iff b.data a.data).mpr hlt
    rw [h] at h2
    cases h2
  · intro h
    rcases Bool.dichotomy (charListLt b.data a.data) with hf | ht
    · exact hf
    · have hlex := (List.lt_iff_lex_lt _ _).mp ((charListLt_iff _ _).mp ht)
      exact absurd (String.lt_iff_toList_lt.mpr hlex) h

/-- C7: flattening is insertion-order independent and ordered — the
flattened view of an object is unchanged under any permutation of its
entries (Go map iteration order never matters because the keys are
sorted first), the visited key order is sorted by the string order, the
object case walks exactly the key-sorted entries and the array case the
elements in index order; determinism and purity are inherent in the
functional model (the same tree always flattens to the same list and the
tree is never modified).  The concrete conjunct shows a depth-first
flatten with lexicographic keys and indexed array entries. -/
theorem c7_flatten_order :
    (∀ (l l' : List (String × JValue)) (p : String),
      l.Perm l' → (l.map Prod.fst).Nodup →
      flattenJSONForView (.obj l) p = flattenJSONForView (.obj l') p)
    ∧ (∀ l : List (String × JValue), ((sortEnts l).map Prod.fst).Sorted (· ≤ ·))
    ∧ (∀ (l : List (String × JValue)) (p : String),
      flattenJSONForView (.obj l) p = flattenEntsF (entsSize l) (sortEnts l) p)
    ∧ (∀ (l : List JValue) (p : String),
      flattenJSONForView (.arr l) p = flattenArrF (valsSize l) l p 0)
    ∧ flattenJSONForView (.obj [("b", .arr [.jstr "x", .jstr "y"]), ("a", .jflt 505 4)]) ""
      = [("a", "8080"), ("b[0]", "x"), ("b[1]", "y")] := by
  refine ⟨?_, ?_, ?_, ?_, by rfl⟩
  · intro l l' p hperm hnd
    have h1 : flattenJSONForView (.obj l) p = flattenEntsF (entsSize l) (sortEnts l) p := rfl
    have h2 : flattenJSONForView (.obj l') p
        = flattenEntsF (entsSize l') (sortEnts l') p := rfl
    rw [h1, h2, entsSize_perm hperm, sortEnts_eq_of_perm l l' hperm hnd]
  · intro l
    have hp := sortEnts_pairwise l
    exact List.pairwise_map.mpr (hp.imp (fun hab => (strLeB_iff _ _).mp hab))
  · intro l p
    rfl
  · intro l p
    rfl

/-- C7, witness: a concrete two-entry object flattened after swapping its
entries. -/
theorem c7_flatten_order_witness :
    ([("b", JValue.jnull), ("a", JValue.jstr "x")].Perm
        [("a", JValue.jstr "x"), ("b", JValue.jnull)]
      ∧ ([("b", JValue.jnull), ("a", JValue.jstr "x")].map Prod.fst).Nodup)
    ∧ flattenJSONForView (.obj [("b", JValue.jnull), ("a", JValue.jstr "x")]) ""
      = flattenJSONForView (.obj [("a", JValue.jstr "x"), ("b", JValue.jnull)]) "" :=
  ⟨⟨List.Perm.swap ("a", JValue.jstr "x") ("b", JValue.jnull) [], by decide⟩,
   c7_flatten_order.1 [("b", JValue.jnull), ("a", JValue.jstr "x")]
     [("a", JValue.jstr "x"), ("b", JValue.jnull)] ""
     (List.Perm.swap ("a", JValue.jstr "x") ("b", JValue.jnull) []) (by decide)⟩
